import Mathlib

/-!
Verification of the Code-reader analysis pipeline against its specification.

The definitions below are a shallow embedding of the Python sources:

* `src/src/utils/llm_parser.py`   — `LLMParser` (cache keys, retry loop,
  failure handling, concurrency admission via `asyncio.Semaphore`);
* `src/src/nodes/code_parsing_batch_node.py` — `CodeParsingBatchNode`
  (structure extraction, retrieval-query construction, context dedup and
  rendering, incremental report writing);
* `src/backend/config.py`         — configuration defaults.

Machine integers are modelled as `Nat` (the Python values involved are
small non-negative counters), fallible code as `Option`/`Except`, and
stateful code as explicit state passing or traces of events.
-/

namespace CodeReader

/-! ## Configuration (`backend/config.py`) -/

/-- Model of `LLM_MAX_CONCURRENT: int = int(os.getenv("LLM_MAX_CONCURRENT", 25))`
(`backend/config.py` line 46): the configured concurrency ceiling is the
(parsed) environment override when present, else `25`. -/
def llmMaxConcurrent (envOverride : Option Nat) : Nat :=
  envOverride.getD 25

/-! ## Semaphore admission (`llm_parser.py` lines 42 and 87)

`LLMParser.__init__` creates `asyncio.Semaphore(self.max_concurrent)` and
`_make_api_request` enters the request-issuing region only under
`async with self.semaphore`.  We embed the semaphore's semantics as a
trace of acquire/release events: an acquire is admitted only while the
current in-flight count is strictly below the ceiling, a release only
while some call is in flight.  `semCounts` lists the in-flight count
after each event of a trace; `semValid` checks the guard along the
whole trace. -/

inductive SemEvent where
  | acquire
  | release
deriving DecidableEq, Repr

/-- In-flight count after each event, starting from count `c`. -/
def semCounts : Nat → List SemEvent → List Nat
  | _, [] => []
  | c, SemEvent.acquire :: tr => (c + 1) :: semCounts (c + 1) tr
  | c, SemEvent.release :: tr => (c - 1) :: semCounts (c - 1) tr

/-- The semaphore guard along a trace, starting from count `c` with
ceiling `n`: each acquire requires `c < n`, each release requires
`0 < c`. -/
def semValid (n : Nat) : Nat → List SemEvent → Bool
  | _, [] => true
  | c, SemEvent.acquire :: tr => if c < n then semValid n (c + 1) tr else false
  | c, SemEvent.release :: tr => if 0 < c then semValid n (c - 1) tr else false

/-! ## `LLMParser._make_api_request` retry loop (`llm_parser.py` lines 78-103) -/

/-- Outcome of one attempt of the underlying
`client.chat.completions.create` call: the response text on success, the
exception message on failure. -/
inductive AttemptOutcome where
  | success (text : String)
  | failure (msg : String)
deriving DecidableEq, Repr

/-- The retry loop of `_make_api_request`, starting at attempt index
`attempt` with `remaining` loop iterations left (so `remaining` is
`max_retries - attempt`).  Returns the result (`Except.error` models the
raised `LLMParsingError`) together with the list of back-off delays slept
between attempts, in order.  Mirrors:

for attempt in range(max_retries):
    try: ... return response.choices[0].message.content
    except Exception as e:
        if attempt == max_retries - 1: raise LLMParsingError("API request failed: " + str(e))
        await asyncio.sleep(self.retry_delay * (2 ** attempt))
raise LLMParsingError("Max retries exceeded")
-/
def runAttempts (retryDelay : Nat) (outcomes : Nat → AttemptOutcome) :
    Nat → Nat → Except String String × List Nat
  | _, 0 => (Except.error "Max retries exceeded", [])
  | attempt, remaining + 1 =>
    match outcomes attempt with
    | AttemptOutcome.success t => (Except.ok t, [])
    | AttemptOutcome.failure e =>
      if remaining = 0 then
        (Except.error ("API request failed: " ++ e), [])
      else
        let r := runAttempts retryDelay outcomes (attempt + 1) remaining
        (r.1, retryDelay * 2 ^ attempt :: r.2)

/-- `_make_api_request` with retry budget `maxRetries` (default 3 in the
source): runs the attempt loop from attempt 0. -/
def makeApiRequest (retryDelay maxRetries : Nat) (outcomes : Nat → AttemptOutcome) :
    Except String String × List Nat :=
  runAttempts retryDelay outcomes 0 maxRetries

/-! ## Analysis results (`llm_parser.py`) -/

/-- One validated analysis item (`_parse_detailed_response` keeps only
dict items having all of title/description/source/language/code; the
report writer later adds `file_path` and `search_target` keys, modelled
as options that start out absent). -/
structure AnalysisItem where
  title : String
  description : String
  source : String
  language : String
  code : String
  file_path : Option String := none
  search_target : Option String := none
deriving DecidableEq, Repr

/-- The result dict produced for one file.  Keys that a given code path
does not set are modelled by their `dict.get` defaults (`error` and
`language` by `none`, list-valued keys by `[]`). -/
structure FileAnalysisResult where
  file_path : String
  analysis_items : List AnalysisItem := []
  error : Option String := none
  language : Option String := none
  functions : List String := []
  classes : List String := []
  code_snippets : List String := []
deriving DecidableEq, Repr

/-- `parse_code_file_detailed` (`llm_parser.py` lines 105-134): issues the
request through `_make_api_request`; a successful response text is handed
to `_parse_detailed_response` (abstracted here as the argument
`parseResp`, itself total because that function catches its own
exceptions); any exception `e` escaping the request—in particular the
`LLMParsingError` raised after retry exhaustion—is caught by the
`except` clause and turned into
`{"file_path": file_path, "analysis_items": [], "error": str(e)}`.
The function is total: no exception reaches the caller. -/
def parseCodeFileDetailed (retryDelay maxRetries : Nat) (outcomes : Nat → AttemptOutcome)
    (parseResp : String → FileAnalysisResult) (filePath : String) : FileAnalysisResult :=
  match (makeApiRequest retryDelay maxRetries outcomes).1 with
  | Except.ok response => parseResp response
  | Except.error e => { file_path := filePath, analysis_items := [], error := some e }

/-! ## `LLMParser._get_cache_key` and the cache hit path (`llm_parser.py` lines 44-52, 151-156) -/

/-- The per-character effect of the chained
`.replace("/", "_").replace("\\", "_").replace(":", "_").replace(" ", "_").replace("-", "_")`:
every replaced pattern is a single character and every replacement is
`'_'` (which no later replace touches), so the chain is a character map. -/
def safeChar (c : Char) : Char :=
  if c = '/' ∨ c = '\\' ∨ c = ':' ∨ c = ' ' ∨ c = '-' then '_' else c

/-- `safe_path.rsplit(".", 1)[0]` guarded by `if "." in safe_path`:
drops the last `'.'` and everything after it. -/
def dropExtension (cs : List Char) : List Char :=
  if '.' ∈ cs then (((cs.reverse).dropWhile (fun c => ¬ (c = '.'))).drop 1).reverse
  else cs

/-- `_get_cache_key(file_path, prompt_type)`. -/
def getCacheKey (filePath promptType : String) : String :=
  String.mk (dropExtension (filePath.data.map safeChar)) ++ "_" ++ promptType

/-- `_load_from_cache`: the on-disk cache directory keyed by cache key,
modelled as an association list. -/
def loadFromCache (cache : List (String × FileAnalysisResult)) (key : String) :
    Option FileAnalysisResult :=
  List.lookup key cache

/-- The cache-consultation head of `parse_code_file` (lines 151-156):
on a cache hit the cached result is returned unchanged; otherwise the
fresh analysis (the rest of the function body, abstracted as `fresh`)
is produced. -/
def parseCodeFile (cache : List (String × FileAnalysisResult)) (filePath : String)
    (fresh : FileAnalysisResult) : FileAnalysisResult :=
  match loadFromCache cache (getCacheKey filePath "analysis") with
  | some cached => cached
  | none => fresh

/-! ## Python dict helpers

The report code keeps insertion-ordered Python dicts; we model them as
association lists with insertion-ordered keys. -/

/-- `d[k] = v` on an insertion-ordered dict: replaces the value in place
when the key exists, appends the pair otherwise. -/
def dictSet {α : Type} : List (String × α) → String → α → List (String × α)
  | [], k, v => [(k, v)]
  | (k', v') :: rest, k, v =>
    if k' = k then (k, v) :: rest else (k', v') :: dictSet rest k v

/-- `d[k].append(x)` on a dict of lists: appends to the value at `k`
when present (the sources only call this with `k` present), identity
otherwise. -/
def dictListAppend {α : Type} : List (String × List α) → String → α → List (String × List α)
  | [], _, _ => []
  | (k', xs) :: rest, k, x =>
    if k' = k then (k', xs ++ [x]) :: rest else (k', xs) :: dictListAppend rest k x

/-- The grouping idiom used by `_get_rag_context`, `_append_to_markdown`
and `_append_to_json`:

if target not in target_groups: target_groups[target] = []
target_groups[target].append(item)
-/
def addToGroups {α : Type} : List (String × List α) → String → α → List (String × List α)
  | [], t, x => [(t, [x])]
  | (t', xs) :: rest, t, x =>
    if t' = t then (t', xs ++ [x]) :: rest else (t', xs) :: addToGroups rest t x

/-- Group a list by a string key, keys in first-seen order, items of each
group in original order. -/
def groupByKey {α : Type} (keyOf : α → String) (items : List α) :
    List (String × List α) :=
  items.foldl (fun gs x => addToGroups gs (keyOf x) x) []

/-- `json_data["statistics"]["search_targets"]` update: insert the key
with count 0 when absent, then add `delta`. -/
def bumpCounter (d : List (String × Nat)) (k : String) (delta : Nat) : List (String × Nat) :=
  dictSet d k ((List.lookup k d).getD 0 + delta)

/-! ## Structured report artifact (`code_parsing_batch_node.py` lines 348-389, 542-609) -/

/-- The `statistics` object of `analysis_report.json`.  The
`search_targets` sub-dict is absent initially and materialised on first
use (`if "search_targets" not in ...`); an empty association list models
the absent dict faithfully for every later read. -/
structure ReportStatistics where
  total_files : Nat
  total_functions : Nat
  total_classes : Nat
  total_snippets : Nat
  search_targets : List (String × Nat) := []
deriving DecidableEq, Repr

/-- One entry of the `files` array, as built by `_append_to_json`
(`file_data`).  `target_statistics` is flattened into its two fields. -/
structure FileRecord where
  file_path : String
  language : String
  analysis_items : List AnalysisItem
  analysis_items_by_target : List (String × List AnalysisItem)
  search_targets : List String
  functions : List String
  classes : List String
  code_snippets : List String
  analysis_timestamp : String
  total_targets : Nat
  targets_detail : List (String × Nat)
deriving DecidableEq, Repr

/-- The whole JSON artifact (`repository` header flattened to the fields
the code writes). -/
structure ReportJson where
  repo_name : String
  analysis_time : String
  files : List FileRecord
  statistics : ReportStatistics
deriving DecidableEq, Repr

/-- `_initialize_analysis_file`'s `initial_json_data`:
`{"repository": ..., "files": [], "statistics": {"total_files": 0,
"total_functions": 0, "total_classes": 0, "total_snippets": 0}}`. -/
def initialReportJson (repoName now : String) : ReportJson :=
  { repo_name := repoName
    analysis_time := now
    files := []
    statistics :=
      { total_files := 0, total_functions := 0, total_classes := 0, total_snippets := 0 } }

/-- The `file_language` inference of `_append_to_json` (lines 561-567):
`result.get("language", "unknown")`, overridden by the first item's
language when it is `"unknown"` and the first item says otherwise. -/
def inferFileLanguage (result : FileAnalysisResult) (items : List AnalysisItem) : String :=
  let fl := result.language.getD "unknown"
  if fl = "unknown" then
    match items with
    | [] => fl
    | i :: _ => if ¬ (i.language = "unknown") then i.language else fl
  else fl

/-- `_append_to_json(file_path, items, json_path, result)` as a pure
transition on the artifact (`now` stands for `_get_current_time()`):
reads the artifact, groups the items by `search_target`
(default `"文件-" + file_path`), appends one `file_data` record, and
updates the rolling statistics exactly as lines 586-602 do. -/
def appendToJson (now : String) (s : ReportJson) (filePath : String)
    (items : List AnalysisItem) (result : FileAnalysisResult) : ReportJson :=
  let targetGroups := groupByKey (fun i => i.search_target.getD ("文件-" ++ filePath)) items
  let fileData : FileRecord :=
    { file_path := filePath
      language := inferFileLanguage result items
      analysis_items := items
      analysis_items_by_target := targetGroups
      search_targets := targetGroups.map Prod.fst
      functions := result.functions
      classes := result.classes
      code_snippets := result.code_snippets
      analysis_timestamp := now
      total_targets := targetGroups.length
      targets_detail := targetGroups.map (fun g => (g.1, g.2.length)) }
  let files := s.files ++ [fileData]
  { s with
    files := files
    statistics :=
      { total_files := files.length
        total_functions := s.statistics.total_functions + result.functions.length
        total_classes := s.statistics.total_classes + result.classes.length
        total_snippets := s.statistics.total_snippets + items.length
        search_targets :=
          targetGroups.foldl (fun d g => bumpCounter d g.1 g.2.length)
            s.statistics.search_targets } }

/-! ## Incremental report writing (`code_parsing_batch_node.py` lines 149-181, 391-432) -/

/-- Python truthiness of `result.get("error")`: `None` and `""` are
falsy, every other string truthy. -/
def pyTruthy : Option String → Bool
  | none => false
  | some s => ¬ (s = "")

/-- The enhancement loop of `_append_analysis_to_file` (lines 408-421):
each item gets a `file_path` field and a `search_target` inferred by
`_infer_search_target` (abstracted as `inferTarget title source filePath`;
its value is a pure function of those three strings). -/
def enhanceItems (inferTarget : String → String → String → String) (filePath : String)
    (items : List AnalysisItem) : List AnalysisItem :=
  items.map fun item =>
    { item with
      file_path := some filePath
      search_target := some (inferTarget item.title item.source filePath) }

/-- The pair of report artifacts plus the precondition that
`shared["analysis_report_path"]`/`shared["analysis_json_path"]` are set.
The markdown artifact is modelled as the list of appended per-file
sections (`_append_to_markdown` appends one section per call). -/
structure ReportState where
  pathsReady : Bool
  markdownSections : List (String × List AnalysisItem)
  json : ReportJson
deriving Repr

/-- State after `_initialize_analysis_file`. -/
def initialReportState (repoName now : String) : ReportState :=
  { pathsReady := true, markdownSections := [], json := initialReportJson repoName now }

/-- `_append_analysis_to_file(result, shared)`: returns the state
unchanged when the artifact paths are missing, or when
`result.get("analysis_items", [])` is empty (the `if not items: return`
guard at lines 402-405, before any write); otherwise enhances the items
and appends to both artifacts. -/
def appendAnalysisToFile (inferTarget : String → String → String → String) (now : String)
    (st : ReportState) (result : FileAnalysisResult) : ReportState :=
  if ¬ st.pathsReady then st
  else
    let items := result.analysis_items
    if items = [] then st
    else
      let enhanced := enhanceItems inferTarget result.file_path items
      { st with
        markdownSections := st.markdownSections ++ [(result.file_path, enhanced)]
        json := appendToJson now st.json result.file_path enhanced result }

/-- The write step of `exec_async` (lines 162-164):
`if not result.get("error"): await self._append_analysis_to_file(result, shared)`. -/
def execWriteStep (inferTarget : String → String → String → String) (now : String)
    (st : ReportState) (result : FileAnalysisResult) : ReportState :=
  if pyTruthy result.error then st else appendAnalysisToFile inferTarget now st result

/-! ## Line scanning (`_extract_*_regex`, `code_parsing_batch_node.py`)

The heuristic fallback extractors work line by line with `str.strip`,
indentation counts and a handful of anchored regular expressions over
ASCII identifiers.  We implement those string operations directly on
character lists. -/

/-- Python `str` whitespace as used by `strip`/`lstrip` and regex `\s`
on the characters that can occur inside one line. -/
def isPySpace (c : Char) : Bool :=
  c = ' ' || c = '\t' || c = '\n' || c = '\r' || c = '\x0c' || c = '\x0b'

/-- `line.lstrip()`. -/
def pyLstrip (cs : List Char) : List Char :=
  cs.dropWhile isPySpace

/-- `line.strip()`. -/
def pyStrip (cs : List Char) : List Char :=
  ((pyLstrip cs).reverse.dropWhile isPySpace).reverse

/-- `content.split("\n")` (keeps empty pieces). -/
def splitLinesGo (cur : List Char) : List Char → List (List Char)
  | [] => [cur.reverse]
  | c :: rest =>
    if c = '\n' then cur.reverse :: splitLinesGo [] rest
    else splitLinesGo (c :: cur) rest

/-- `content.split("\n")`. -/
def splitLines (cs : List Char) : List (List Char) :=
  splitLinesGo [] cs

/-- Regex class `[A-Za-z_]`. -/
def isIdentStart (c : Char) : Bool :=
  ('A' ≤ c && c ≤ 'Z') || ('a' ≤ c && c ≤ 'z') || c = '_'

/-- Regex class `[A-Za-z0-9_]`. -/
def isIdentChar (c : Char) : Bool :=
  isIdentStart c || ('0' ≤ c && c ≤ '9')

/-- Consume an exact literal at the head of the input, returning the
rest. -/
def consumeLit : List Char → List Char → Option (List Char)
  | [], cs => some cs
  | _ :: _, [] => none
  | l :: ls, c :: cs => if c = l then consumeLit ls cs else none

/-- Regex `\s+`: at least one whitespace character, greedily consumed
(the net effect of greedy matching with backtracking, since what must
follow is never whitespace). -/
def consumeSpaces1 (cs : List Char) : Option (List Char) :=
  match cs with
  | [] => none
  | c :: rest => if isPySpace c then some (rest.dropWhile isPySpace) else none

/-- Capture group `([A-Za-z_][A-Za-z0-9_]*)` at the head of the input. -/
def takeIdentName (cs : List Char) : Option String :=
  match cs with
  | [] => none
  | c :: rest =>
    if isIdentStart c then some (String.mk (c :: rest.takeWhile isIdentChar)) else none

/-- `re.match(r"^class\s+([A-Za-z_][A-Za-z0-9_]*)", line)`, returning
group 1. -/
def matchClassName (cs : List Char) : Option String :=
  (consumeLit ['c', 'l', 'a', 's', 's'] cs).bind fun rest =>
    (consumeSpaces1 rest).bind takeIdentName

/-- `re.match(r"^class\s+", line)` (keyword only, used by the
independent-function scanner). -/
def matchesClassKw (cs : List Char) : Bool :=
  (((consumeLit ['c', 'l', 'a', 's', 's'] cs).bind consumeSpaces1)).isSome

/-- The `def\s+([A-Za-z_][A-Za-z0-9_]*)` tail shared by the two
function-definition regexes. -/
def matchDefTail (cs : List Char) : Option String :=
  (consumeLit ['d', 'e', 'f'] cs).bind fun rest =>
    (consumeSpaces1 rest).bind takeIdentName

/-- `re.match(r"^(async\s+)?def\s+([A-Za-z_][A-Za-z0-9_]*)", line)`,
returning group 2: try the optional `async\s+` prefix first, fall back
to the empty group (regex backtracking semantics). -/
def matchDefName (cs : List Char) : Option String :=
  match (consumeLit ['a', 's', 'y', 'n', 'c'] cs).bind consumeSpaces1 with
  | some rest =>
    match matchDefTail rest with
    | some n => some n
    | none => matchDefTail cs
  | none => matchDefTail cs

/-- `re.match(r"^(def|async\s+def|@)", line)` as a Bool (the scanner only
tests whether it matched). -/
def matchesDefOrDecorator (cs : List Char) : Bool :=
  (consumeLit ['d', 'e', 'f'] cs).isSome ||
  (((consumeLit ['a', 's', 'y', 'n', 'c'] cs).bind consumeSpaces1).bind
      (consumeLit ['d', 'e', 'f'])).isSome ||
  (match cs with
   | '@' :: _ => true
   | _ => false)

/-- `name.startswith("_")`. -/
def startsUnderscore (s : String) : Bool :=
  match s.data with
  | '_' :: _ => true
  | _ => false

/-- `line.startswith("#")` on a char list. -/
def startsHash (cs : List Char) : Bool :=
  match cs with
  | '#' :: _ => true
  | _ => false

/-- ASCII lowering of one character; the names compared against the
stoplists are ASCII identifiers, for which Python `str.lower` agrees. -/
def lowerChar (c : Char) : Char :=
  if 'A' ≤ c && c ≤ 'Z' then Char.ofNat (c.toNat + 32) else c

/-- `name.lower()`. -/
def lowerStr (s : String) : String :=
  String.mk (s.data.map lowerChar)

/-! ## `_extract_class_method_relationships_regex` (lines 756-793) -/

/-- Loop state of the regex relationship scanner: the class currently
being scanned (if any), its indent, and the relationships dict. -/
structure RelScanState where
  currentClass : Option String
  indentLevel : Nat
  relationships : List (String × List String)
deriving Repr

/-- The reserved method names excluded by the regex scanner
(line 787). -/
def reservedMethods : List String :=
  ["__str__", "__repr__", "__eq__", "__hash__"]

/-- One iteration of the `for line in lines` loop of
`_extract_class_method_relationships_regex`. -/
def relScanStep (st : RelScanState) (line : List Char) : RelScanState :=
  let stripped := pyStrip line
  if stripped = [] then st
  else
    let lineIndent := line.length - (pyLstrip line).length
    match matchClassName stripped with
    | some cname =>
      { currentClass := some cname
        indentLevel := lineIndent
        relationships := dictSet st.relationships cname [] }
    | none =>
      match st.currentClass with
      | some cls =>
        if lineIndent > st.indentLevel then
          match matchDefName stripped with
          | some m =>
            if m ∈ reservedMethods then st
            else { st with relationships := dictListAppend st.relationships cls m }
          | none => st
        else { st with currentClass := none }
      | none => st

/-- `_extract_class_method_relationships_regex(content)`. -/
def extractRelationshipsRegex (content : String) : List (String × List String) :=
  ((splitLines content.data).foldl relScanStep
    { currentClass := none, indentLevel := 0, relationships := [] }).relationships

/-! ## Python AST model (`ast.parse` / `ast.walk`)

Only the node shapes the extractors inspect are represented: class
definitions, (async) function definitions, and a constructor for every
other statement kind, each carrying the child statements that
`ast.iter_child_nodes` would expose.  `ast.parse` itself is a CPython
black box; the extractors take it as the `parse` argument
(`String → Option (List PyStmt)`, `none` modelling a raised
`SyntaxError`). -/

mutual

inductive PyStmt where
  | classDef (name : String) (body : PyBody)
  | funcDef (name : String) (isAsync : Bool) (body : PyBody)
  | other (body : PyBody)

inductive PyBody where
  | nil
  | cons (s : PyStmt) (rest : PyBody)

end

mutual

/-- Size of one node (for the BFS termination measure). -/
def pyStmtSize : PyStmt → Nat
  | PyStmt.classDef _ b => 1 + pyBodySize b
  | PyStmt.funcDef _ _ b => 1 + pyBodySize b
  | PyStmt.other b => 1 + pyBodySize b

/-- Size of a statement sequence. -/
def pyBodySize : PyBody → Nat
  | PyBody.nil => 0
  | PyBody.cons s rest => pyStmtSize s + pyBodySize rest

end

/-- A body as a plain list. -/
def pyBodyList : PyBody → List PyStmt
  | PyBody.nil => []
  | PyBody.cons s rest => s :: pyBodyList rest

/-- The child statements of a node (what `ast.iter_child_nodes` yields,
restricted to the statements that can contain or be class/function
definitions). -/
def pyChildren : PyStmt → List PyStmt
  | PyStmt.classDef _ b => pyBodyList b
  | PyStmt.funcDef _ _ b => pyBodyList b
  | PyStmt.other b => pyBodyList b

/-- Total size of a work queue. -/
def pyQueueSize (q : List PyStmt) : Nat :=
  (q.map pyStmtSize).sum

/-- Breadth-first traversal with explicit fuel.  Each step dequeues one
node and enqueues its children; since a node of size `k` is replaced by
children of total size `k - 1`, the queue size strictly decreases, so
the initial queue size is exactly enough fuel and the
`fuel = 0` / nonempty-queue case is unreachable. -/
def pyWalkGo : Nat → List PyStmt → List PyStmt
  | _, [] => []
  | 0, _ :: _ => []
  | fuel + 1, s :: rest => s :: pyWalkGo fuel (rest ++ pyChildren s)

/-- `ast.walk(tree)`: breadth-first traversal via a FIFO queue
(`todo.popleft()` then `todo.extend(iter_child_nodes(node))`). -/
def pyWalk (q : List PyStmt) : List PyStmt :=
  pyWalkGo (pyQueueSize q) q

/-- The method-collection loop of the AST relationship extractor
(lines 332-334): the names of the (async) function definitions directly
in a class body — with no filtering of reserved names. -/
def directMethods (b : PyBody) : List String :=
  (pyBodyList b).foldl
    (fun acc s =>
      match s with
      | PyStmt.funcDef n _ _ => acc ++ [n]
      | _ => acc) []

/-- The `ast.walk` loop of `_extract_class_method_relationships`
(lines 326-336): every `ClassDef` encountered (including nested ones)
is assigned its direct methods in the dict. -/
def astClassRelationships (tree : List PyStmt) : List (String × List String) :=
  (pyWalk tree).foldl
    (fun rel s =>
      match s with
      | PyStmt.classDef name body => dictSet rel name (directMethods body)
      | _ => rel) []

/-- `_extract_class_method_relationships(content, language)`
(lines 315-346): for Python, `ast.parse` then the AST walk, regex
fallback on parse failure; the regex scanner for every other
language. -/
def extractClassMethodRelationships (parse : String → Option (List PyStmt))
    (content language : String) : List (String × List String) :=
  if language = "python" then
    match parse content with
    | some tree => astClassRelationships tree
    | none => extractRelationshipsRegex content
  else extractRelationshipsRegex content

/-! ## `_extract_independent_functions_regex` (lines 711-754) -/

/-- Loop state of the regex independent-function scanner. -/
structure IndepScanState where
  inClass : Bool
  classIndent : Nat
  names : List String
deriving Repr

/-- The class-exit test of the scanner (lines 743-744): a stripped,
non-comment line at or below the class indent that is not a
definition/decorator line leaves the class. -/
def indepScanExitClass (st : IndepScanState) (stripped : List Char) (lineIndent : Nat) :
    IndepScanState :=
  if st.inClass ∧ lineIndent ≤ st.classIndent ∧ ¬ startsHash stripped then
    if matchesDefOrDecorator stripped then st else { st with inClass := false }
  else st

/-- One iteration of the `for line in lines` loop of
`_extract_independent_functions_regex`. -/
def indepScanStep (classMethods : List String) (st : IndepScanState) (line : List Char) :
    IndepScanState :=
  let stripped := pyStrip line
  if stripped = [] then st
  else
    let lineIndent := line.length - (pyLstrip line).length
    if matchesClassKw stripped then
      { inClass := true, classIndent := lineIndent, names := st.names }
    else
      let st1 := indepScanExitClass st stripped lineIndent
      match matchDefName stripped with
      | some n =>
        if ¬ st1.inClass ∧ n ∉ classMethods ∧ ¬ startsUnderscore n then
          { st1 with names := st1.names ++ [n] }
        else st1
      | none => st1

/-- All method names claimed by classes
(`class_methods.update(methods)` over the dict values). -/
def classMethodsOf (rels : List (String × List String)) : List String :=
  (rels.map Prod.snd).flatten

/-- `_extract_independent_functions_regex(content, class_relationships)`.
The final `list(set(...))` is modelled as first-occurrence
deduplication; CPython's set iteration order is unspecified, and every
property stated about this list is order-invariant. -/
def extractIndependentFunctionsRegex (content : String)
    (rels : List (String × List String)) : List String :=
  (((splitLines content.data).foldl (indepScanStep (classMethodsOf rels))
    { inClass := false, classIndent := 0, names := [] }).names).dedup

/-! ## `_extract_independent_functions` (lines 661-709) -/

/-- The stoplist of the AST independent-function filter (line 703). -/
def indepCommonWords : List String :=
  ["main", "init", "test", "setup", "teardown", "__init__", "__main__"]

/-- The candidate loop over `ast.walk` (lines 680-688): every (async)
function definition anywhere in the tree passes the `parent` test
(`getattr(node, "parent", None)` is always `None`, as `ast` attaches no
parent links), so a name is collected iff it is not claimed by a class
and does not start with `_`. -/
def astIndepCandidates (tree : List PyStmt) (classMethods : List String) : List String :=
  (pyWalk tree).foldl
    (fun acc s =>
      match s with
      | PyStmt.funcDef n _ _ =>
        if n ∉ classMethods ∧ ¬ startsUnderscore n then acc ++ [n] else acc
      | _ => acc) []

/-- The final filter of the AST path (lines 702-709): keep names longer
than 2 whose lowercase form is not a stoplist word. -/
def goodIndepName (n : String) : Bool :=
  n.data.length > 2 && ¬ (lowerStr n ∈ indepCommonWords)

/-- `_extract_independent_functions(content, language, class_relationships)`:
AST candidates when Python parses successfully, regex fallback on parse
failure or when no candidate is found; the filter and the `[:10]` cap
are applied only on the AST success path (the fallback `return`s
directly).  `set`-iteration order is again modelled as first-occurrence
order. -/
def extractIndependentFunctions (parse : String → Option (List PyStmt))
    (content language : String) (rels : List (String × List String)) : List String :=
  if language = "python" then
    match parse content with
    | none => extractIndependentFunctionsRegex content rels
    | some tree =>
      let cands := astIndepCandidates tree (classMethodsOf rels)
      if cands = [] then extractIndependentFunctionsRegex content rels
      else ((cands.dedup).filter goodIndepName).take 10
  else extractIndependentFunctionsRegex content rels

/-! ## Retrieval query construction (`_get_rag_context`, lines 207-229) -/

/-- The `search_queries` list: one file-level query, then one query per
class, then one query per independent function, appended in loop
order. -/
def buildSearchQueries (filePath language : String)
    (rels : List (String × List String)) (funcs : List String) : List String :=
  let qs := [filePath ++ " " ++ language ++ " 文件"]
  let qs := rels.foldl (fun acc c => acc ++ [c.1 ++ " 类 " ++ language]) qs
  funcs.foldl (fun acc f => acc ++ [f ++ " 函数 " ++ language]) qs

/-! ## Retrieval context assembly (`_get_rag_context`, lines 231-309) -/

/-- One retrieved passage as appended to `all_results` (lines 244-255);
every key is set at construction. -/
structure Passage where
  title : String
  content : String
  file_path : String
  file : String
  category : String
  language : String
  query : String
  search_target : String
deriving DecidableEq, Repr

/-- The dedup loop (lines 264-271):

seen_content = set(); unique_results = []
for result in all_results:
    content_hash = hash(result["content"])
    if content_hash not in seen_content:
        seen_content.add(content_hash); unique_results.append(result)

The dedup key `hash(result["content"])` is a deterministic function of
the content string, so two equal contents always collide; the key is
modelled as the content string itself. -/
def dedupByContent : List String → List Passage → List Passage
  | _, [] => []
  | seen, p :: rest =>
    if p.content ∈ seen then dedupByContent seen rest
    else p :: dedupByContent (p.content :: seen) rest

/-- `unique_results`. -/
def uniqueResults (rs : List Passage) : List Passage :=
  dedupByContent [] rs

/-- `result.get("search_target", "未知目标")` — the key is always present,
so this is the field itself; kept as a named accessor mirroring the
`get`. -/
def passageTarget (p : Passage) : String :=
  p.search_target

/-- `target_groups` (lines 277-283): the first 15 unique results grouped
by target label. -/
def targetGroupsOf (rs : List Passage) : List (String × List Passage) :=
  groupByKey passageTarget ((uniqueResults rs).take 15)

/-- The passages actually rendered: for each target group, the first
three of its results (`results[:3]`, line 288). -/
def shownPassages (rs : List Passage) : List Passage :=
  (targetGroupsOf rs).flatMap (fun g => g.2.take 3)

/-- The snippet truncation (line 295):
`content_snippet[:400] + "..." if len(content_snippet) > 400 else content_snippet`. -/
def snippetOf (content : String) : String :=
  if content.data.length > 400 then String.mk (content.data.take 400) ++ "..."
  else content

/-- The `context_parts` lines appended for one shown passage
(lines 297-300), with its 1-based index. -/
def passageLines (idx : Nat) (p : Passage) : List String :=
  let fileInfo := p.file
  ["  " ++ toString idx ++ ". " ++ p.title ++ " (" ++ p.category ++ ")"] ++
  (if ¬ (fileInfo = "") then ["     文件: " ++ fileInfo] else []) ++
  ["     " ++ snippetOf p.content ++ "\n"]

/-- The lines appended for the first three passages of one group, with
`enumerate(results[:3], 1)` indices. -/
def groupLinesGo (idx : Nat) : List Passage → List String
  | [] => []
  | p :: rest => passageLines idx p ++ groupLinesGo (idx + 1) rest

/-- The `context_parts` block for one target group (lines 286-300). -/
def groupLines (g : String × List Passage) : List String :=
  ["\n--- 检索目标: " ++ g.1 ++ " ---"] ++ groupLinesGo 1 (g.2.take 3)

/-- `_get_rag_context`'s context rendering (lines 273-309): the empty
string when nothing was retrieved, otherwise the header line followed by
the per-group blocks, joined with newlines. -/
def renderContext (rs : List Passage) : String :=
  if uniqueResults rs = [] then ""
  else
    String.intercalate "\n"
      (["=== RAG 检索上下文 ==="] ++ (targetGroupsOf rs).flatMap groupLines)

/-! ## Operation sequences and sample inputs -/

/-- A run of `_append_to_json` calls applied to the initialized
artifact; each element carries the call's timestamp, file path, item
list and result dict. -/
def applyAppends (repoName now0 : String)
    (ops : List (String × String × List AnalysisItem × FileAnalysisResult)) : ReportJson :=
  ops.foldl (fun s op => appendToJson op.1 s op.2.1 op.2.2.1 op.2.2.2)
    (initialReportJson repoName now0)

/-- A run of `exec_async` write steps applied to the freshly initialized
artifacts. -/
def applyWriteSteps (inferTarget : String → String → String → String) (now repoName now0 : String)
    (results : List FileAnalysisResult) : ReportState :=
  results.foldl (execWriteStep inferTarget now) (initialReportState repoName now0)

/-- Source text of a Python file declaring a class `Foo` with reserved
method `__str__`. -/
def dunderContent : String :=
  "class Foo:\n    def __str__(self):\n        pass\n"

/-- The tree `ast.parse(dunderContent)` produces:
`Module(body=[ClassDef('Foo', body=[FunctionDef('__str__', body=[Pass])])])`. -/
def dunderTree : List PyStmt :=
  [PyStmt.classDef "Foo"
    (PyBody.cons
      (PyStmt.funcDef "__str__" false (PyBody.cons (PyStmt.other PyBody.nil) PyBody.nil))
      PyBody.nil)]

/-- `ast.parse` restricted to `dunderContent` (on which it succeeds with
`dunderTree`). -/
def dunderParse : String → Option (List PyStmt) := fun _ => some dunderTree

/-- Source text on which `ast.parse` raises a `SyntaxError` (the last
line is not Python) while the line scanner still sees a module-level
`def main`. -/
def badContent : String := "def main():\n    pass\n!!!"

/-- `ast.parse` restricted to `badContent`: it raises. -/
def badParse : String → Option (List PyStmt) := fun _ => none

/-- Source text of a Python file with class `Foo` (methods `bar`,
`baz`) and an independent function `helper`. -/
def fooContent : String :=
  "class Foo:\n    def bar(self):\n        pass\n\n    def baz(self):\n        pass\n\ndef helper():\n    pass\n"

/-- The tree `ast.parse(fooContent)` produces. -/
def fooTree : List PyStmt :=
  [PyStmt.classDef "Foo"
    (PyBody.cons (PyStmt.funcDef "bar" false (PyBody.cons (PyStmt.other PyBody.nil) PyBody.nil))
      (PyBody.cons (PyStmt.funcDef "baz" false (PyBody.cons (PyStmt.other PyBody.nil) PyBody.nil))
        PyBody.nil)),
   PyStmt.funcDef "helper" false (PyBody.cons (PyStmt.other PyBody.nil) PyBody.nil)]

/-- `ast.parse` restricted to `fooContent` (succeeds with `fooTree`). -/
def fooParse : String → Option (List PyStmt) := fun _ => some fooTree

/-! # Theorems -/

/-- A property preserved by every step of a fold holds of the fold's
result. -/
theorem foldl_inv {α β : Type} (P : β → Prop) (f : β → α → β) (l : List α) (b : β)
    (hb : P b) (hf : ∀ b a, P b → P (f b a)) : P (l.foldl f b) := by
  induction l generalizing b with
  | nil => exact hb
  | cons x l ih => exact ih _ (hf b x hb)

/-- Along any guard-respecting trace started below the ceiling, every
intermediate in-flight count stays at or below the ceiling. -/
theorem semValid_bound (n : Nat) (tr : List SemEvent) :
    ∀ c, c ≤ n → semValid n c tr = true → ∀ x ∈ semCounts c tr, x ≤ n := by
  induction tr with
  | nil => intro c _ _ x hx; simp [semCounts] at hx
  | cons e tr ih =>
    intro c hc hv x hx
    cases e with
    | acquire =>
      simp only [semValid] at hv
      by_cases h : c < n
      · rw [if_pos h] at hv
        simp only [semCounts, List.mem_cons] at hx
        rcases hx with rfl | hx
        · omega
        · exact ih (c + 1) (by omega) hv x hx
      · rw [if_neg h] at hv; exact absurd hv (by simp)
    | release =>
      simp only [semValid] at hv
      by_cases h : 0 < c
      · rw [if_pos h] at hv
        simp only [semCounts, List.mem_cons] at hx
        rcases hx with rfl | hx
        · omega
        · exact ih (c - 1) (by omega) hv x hx
      · rw [if_neg h] at hv; exact absurd hv (by simp)

/-- C1: the configured ceiling defaults to 25, and for every configured
ceiling `llmMaxConcurrent envOverride` and every interleaving of
`_make_api_request` calls that respects the semaphore guard (an acquire
is admitted only while the in-flight count is below the ceiling), the
number of calls simultaneously inside the request-issuing region never
exceeds the ceiling at any point of the trace. -/
theorem c1_concurrency_ceiling (envOverride : Option Nat) (tr : List SemEvent)
    (hv : semValid (llmMaxConcurrent envOverride) 0 tr = true) :
    llmMaxConcurrent none = 25 ∧
    ∀ x ∈ semCounts 0 tr, x ≤ llmMaxConcurrent envOverride :=
  ⟨rfl, semValid_bound (llmMaxConcurrent envOverride) tr 0 (Nat.zero_le _) hv⟩

/-- C1 witness: a concrete guarded trace of two overlapping calls never
exceeds the default ceiling; instantiated at its second event's count. -/
theorem c1_concurrency_ceiling_witness : 2 ≤ llmMaxConcurrent none :=
  (c1_concurrency_ceiling none [SemEvent.acquire, SemEvent.acquire] (by decide)).2
    2 (by decide)

/-- One-step unfolding of the retry loop with at least one iteration
left. -/
theorem runAttempts_succ (d : Nat) (outcomes : Nat → AttemptOutcome)
    (attempt remaining : Nat) :
    runAttempts d outcomes attempt (remaining + 1) =
      match outcomes attempt with
      | AttemptOutcome.success t => (Except.ok t, [])
      | AttemptOutcome.failure e =>
        if remaining = 0 then (Except.error ("API request failed: " ++ e), [])
        else
          ((runAttempts d outcomes (attempt + 1) remaining).1,
            d * 2 ^ attempt :: (runAttempts d outcomes (attempt + 1) remaining).2) := rfl

/-- If every attempt before the last fails and the last attempt
succeeds, the retry loop returns the success and sleeps
`retryDelay * 2 ^ k` before each retry. -/
theorem runAttempts_fail_then_success (d : Nat) (outcomes : Nat → AttemptOutcome)
    (msgs : Nat → String) (t : String) :
    ∀ (fuel attempt : Nat),
      (∀ j, attempt ≤ j → j + 1 < attempt + fuel → outcomes j = AttemptOutcome.failure (msgs j)) →
      outcomes (attempt + fuel - 1) = AttemptOutcome.success t →
      0 < fuel →
      runAttempts d outcomes attempt fuel =
        (Except.ok t, (List.range' attempt (fuel - 1)).map (fun k => d * 2 ^ k)) := by
  intro fuel
  induction fuel with
  | zero => intro attempt _ _ h; exact absurd h (by omega)
  | succ f ih =>
    intro attempt hfail hsucc _
    cases f with
    | zero =>
      have hs : outcomes attempt = AttemptOutcome.success t := by
        have h1 : attempt + 1 - 1 = attempt := by omega
        rw [h1] at hsucc; exact hsucc
      rw [runAttempts_succ, hs]
      simp [List.range']
    | succ f' =>
      have hfa : outcomes attempt = AttemptOutcome.failure (msgs attempt) :=
        hfail attempt le_rfl (by omega)
      have ihh := ih (attempt + 1)
        (fun j hj hj2 => hfail j (by omega) (by omega))
        (by
          have h2 : attempt + 1 + (f' + 1) - 1 = attempt + (f' + 1 + 1) - 1 := by omega
          rw [h2]; exact hsucc)
        (by omega)
      simp only [Nat.add_sub_cancel] at ihh ⊢
      rw [runAttempts_succ, hfa]
      dsimp only
      rw [if_neg (Nat.succ_ne_zero f'), ihh]
      simp [List.range'_succ]

/-- C4: when the generation call fails on each of the first
`maxRetries - 1` attempts and succeeds on the final attempt,
`_make_api_request` returns the successful response text (not a
failure), and the delay slept before retry attempt `k + 1` is
`retry_delay * 2 ^ k`, for `k = 0, …, maxRetries - 2` in order. -/
theorem c4_retry_then_success (d maxRetries : Nat) (outcomes : Nat → AttemptOutcome)
    (msgs : Nat → String) (t : String)
    (hfail : ∀ j, j < maxRetries - 1 → outcomes j = AttemptOutcome.failure (msgs j))
    (hsucc : outcomes (maxRetries - 1) = AttemptOutcome.success t)
    (hpos : 0 < maxRetries) :
    makeApiRequest d maxRetries outcomes =
      (Except.ok t, (List.range (maxRetries - 1)).map (fun k => d * 2 ^ k)) := by
  have h := runAttempts_fail_then_success d outcomes msgs t maxRetries 0
    (fun j _ hj2 => hfail j (by omega)) (by simpa using hsucc) hpos
  rw [makeApiRequest, h, List.range_eq_range']

/-- C4 witness: with `retry_delay = 2` and `max_retries = 3`, two
failures then a success yield the success text after sleeping 2 then
4. -/
theorem c4_retry_then_success_witness :
    makeApiRequest 2 3
        (fun k => if k < 2 then AttemptOutcome.failure "boom" else AttemptOutcome.success "ok") =
      (Except.ok "ok", [2, 4]) := by
  have h := c4_retry_then_success 2 3
    (fun k => if k < 2 then AttemptOutcome.failure "boom" else AttemptOutcome.success "ok")
    (fun _ => "boom") "ok" (by decide) (by decide) (by decide)
  rw [h]
  rfl

/-- If every attempt in the budget fails, the retry loop raises
`LLMParsingError("API request failed: <last message>")`. -/
theorem runAttempts_all_fail (d : Nat) (outcomes : Nat → AttemptOutcome) (msgs : Nat → String) :
    ∀ (fuel attempt : Nat),
      (∀ j, attempt ≤ j → j < attempt + fuel → outcomes j = AttemptOutcome.failure (msgs j)) →
      0 < fuel →
      (runAttempts d outcomes attempt fuel).1 =
        Except.error ("API request failed: " ++ msgs (attempt + fuel - 1)) := by
  intro fuel
  induction fuel with
  | zero => intro attempt _ h; exact absurd h (by omega)
  | succ f ih =>
    intro attempt hfail _
    have hfa : outcomes attempt = AttemptOutcome.failure (msgs attempt) :=
      hfail attempt le_rfl (by omega)
    cases f with
    | zero =>
      rw [runAttempts_succ, hfa]
      simp
    | succ f' =>
      have ihh := ih (attempt + 1) (fun j hj hj2 => hfail j (by omega) (by omega)) (by omega)
      have h2 : attempt + 1 + (f' + 1) - 1 = attempt + (f' + 1 + 1) - 1 := by omega
      rw [h2] at ihh
      rw [runAttempts_succ, hfa]
      dsimp only
      rw [if_neg (Nat.succ_ne_zero f')]
      exact ihh

/-- C5: when every retry attempt of the generation call fails,
`parse_code_file_detailed` returns a result carrying the file path, an
empty `analysis_items` list and a non-empty error string — the caught
`LLMParsingError` message — instead of raising. -/
theorem c5_failure_result (d maxRetries : Nat) (outcomes : Nat → AttemptOutcome)
    (msgs : Nat → String) (parseResp : String → FileAnalysisResult) (filePath : String)
    (hfail : ∀ j, j < maxRetries → outcomes j = AttemptOutcome.failure (msgs j))
    (hpos : 0 < maxRetries) :
    parseCodeFileDetailed d maxRetries outcomes parseResp filePath =
      { file_path := filePath
        analysis_items := []
        error := some ("API request failed: " ++ msgs (maxRetries - 1)) } ∧
    ("API request failed: " ++ msgs (maxRetries - 1)) ≠ "" := by
  constructor
  · have h := runAttempts_all_fail d outcomes msgs maxRetries 0
      (fun j _ hj2 => hfail j (by omega)) hpos
    simp only [Nat.zero_add] at h
    rw [parseCodeFileDetailed, makeApiRequest, h]
  · intro h
    have h2 : ("API request failed: " ++ msgs (maxRetries - 1)).length = 0 := by
      rw [h]; rfl
    rw [String.length_append] at h2
    have h3 : ("API request failed: " : String).length = 20 := rfl
    omega

/-- C5 witness: both retries failing with message `"x"` produce the
error result for `"f.py"` with empty items and a non-empty error
string. -/
theorem c5_failure_result_witness :
    parseCodeFileDetailed 1 2 (fun _ => AttemptOutcome.failure "x")
        (fun _ => { file_path := "" }) "f.py" =
      { file_path := "f.py"
        analysis_items := []
        error := some ("API request failed: " ++ "x") } ∧
    ("API request failed: " ++ "x") ≠ "" :=
  c5_failure_result 1 2 (fun _ => AttemptOutcome.failure "x") (fun _ => "x")
    (fun _ => { file_path := "" }) "f.py" (fun j _ => rfl) (by decide)

/-- C10: the cache key is not injective — `"a/b.py"` and `"a-b.py"` are
distinct paths with the same key — so `parse_code_file` can return a
cached analysis produced for a different file: with the cache seeded by
the analysis of `"a/b.py"`, a request for `"a-b.py"` hits that entry
and returns the record whose `file_path` is `"a/b.py"`. -/
theorem c10_cache_key_collision :
    getCacheKey "a/b.py" "analysis" = getCacheKey "a-b.py" "analysis" ∧
    ("a/b.py" : String) ≠ "a-b.py" ∧
    parseCodeFile [(getCacheKey "a/b.py" "analysis", { file_path := "a/b.py" })] "a-b.py"
        { file_path := "a-b.py" } =
      { file_path := "a/b.py" } := by
  refine ⟨by decide, by decide, by decide⟩

/-- Appending one record through `_append_to_json` preserves the
counter invariant. -/
theorem appendToJson_counters (s : ReportJson) (now filePath : String)
    (items : List AnalysisItem) (result : FileAnalysisResult)
    (h1 : s.statistics.total_files = s.files.length)
    (h2 : s.statistics.total_snippets = (s.files.map fun f => f.analysis_items.length).sum) :
    (appendToJson now s filePath items result).statistics.total_files =
      (appendToJson now s filePath items result).files.length ∧
    (appendToJson now s filePath items result).statistics.total_snippets =
      ((appendToJson now s filePath items result).files.map
        fun f => f.analysis_items.length).sum := by
  constructor
  · rfl
  · simp [appendToJson, h2]

/-- C2: starting from the initialized artifact (empty `files`, zero
counters) and after every sequence of `_append_to_json` calls,
`statistics.total_files` equals the length of the `files` array and
`statistics.total_snippets` equals the sum of the `analysis_items`
lengths over all file records. -/
theorem c2_report_counters (repoName now0 : String)
    (ops : List (String × String × List AnalysisItem × FileAnalysisResult)) :
    (applyAppends repoName now0 ops).statistics.total_files =
      (applyAppends repoName now0 ops).files.length ∧
    (applyAppends repoName now0 ops).statistics.total_snippets =
      ((applyAppends repoName now0 ops).files.map fun f => f.analysis_items.length).sum := by
  unfold applyAppends
  refine foldl_inv
    (fun (s : ReportJson) => s.statistics.total_files = s.files.length ∧
      s.statistics.total_snippets = (s.files.map fun f => f.analysis_items.length).sum)
    _ ops _ ⟨rfl, rfl⟩ ?_
  intro s op h
  exact appendToJson_counters s op.1 op.2.1 op.2.2.1 op.2.2.2 h.1 h.2

/-- One write step preserves "every file record has non-empty
`analysis_items`". -/
theorem execWriteStep_nonempty (inferTarget : String → String → String → String)
    (now : String) (st : ReportState) (r : FileAnalysisResult)
    (h : ∀ f ∈ st.json.files, f.analysis_items ≠ []) :
    ∀ f ∈ (execWriteStep inferTarget now st r).json.files, f.analysis_items ≠ [] := by
  intro f hf
  unfold execWriteStep appendAnalysisToFile at hf
  dsimp only at hf
  split at hf
  · exact h f hf
  · split at hf
    · exact h f hf
    · split at hf
      · exact h f hf
      · rename_i hne
        simp only [appendToJson] at hf
        rcases List.mem_append.mp hf with hf1 | hf1
        · exact h f hf1
        · have hfd := List.mem_singleton.mp hf1
          subst hfd
          simpa [enhanceItems] using hne

/-- C9: a result carrying a (truthy) error string, or an empty
`analysis_items` list, leaves both report artifacts unchanged (the
append step returns before any write); consequently after any run of
write steps every file record in the structured report has a non-empty
`analysis_items` list. -/
theorem c9_error_or_empty_skipped (inferTarget : String → String → String → String)
    (now repoName now0 : String) (st : ReportState) (r : FileAnalysisResult)
    (results : List FileAnalysisResult)
    (h : pyTruthy r.error = true ∨ r.analysis_items = []) :
    execWriteStep inferTarget now st r = st ∧
    ∀ f ∈ (applyWriteSteps inferTarget now repoName now0 results).json.files,
      f.analysis_items ≠ [] := by
  constructor
  · rcases h with h | h
    · unfold execWriteStep
      rw [if_pos h]
    · simp [execWriteStep, appendAnalysisToFile, h]
  · unfold applyWriteSteps
    refine foldl_inv (fun (s : ReportState) => ∀ f ∈ s.json.files, f.analysis_items ≠ [])
      _ results _ ?_ ?_
    · intro f hf
      simp [initialReportState, initialReportJson] at hf
    · intro s r2 hs
      exact execWriteStep_nonempty inferTarget now s r2 hs

/-- C9 witness: a result with error `"boom"` leaves the freshly
initialized state unchanged. -/
theorem c9_error_or_empty_skipped_witness :
    execWriteStep (fun _ _ _ => "") "t" (initialReportState "repo" "t0")
        { file_path := "a.py", error := some "boom" } =
      initialReportState "repo" "t0" :=
  (c9_error_or_empty_skipped (fun _ _ _ => "") "t" "repo" "t0" (initialReportState "repo" "t0")
    { file_path := "a.py", error := some "boom" } [] (Or.inl (by decide))).1

/-- A fold that appends one element per input equals the initial list
followed by the mapped inputs. -/
theorem foldl_append_map {α β : Type} (f : α → β) (l : List α) (init : List β) :
    l.foldl (fun acc x => acc ++ [f x]) init = init ++ l.map f := by
  induction l generalizing init with
  | nil => simp
  | cons x l ih => simp [ih, List.append_assoc]

/-- Closed form of the query-building loops. -/
theorem buildSearchQueries_eq (filePath language : String)
    (rels : List (String × List String)) (funcs : List String) :
    buildSearchQueries filePath language rels funcs =
      (filePath ++ " " ++ language ++ " 文件") ::
        (rels.map (fun c => c.1 ++ " 类 " ++ language) ++
          funcs.map (fun f => f ++ " 函数 " ++ language)) := by
  unfold buildSearchQueries
  rw [foldl_append_map, foldl_append_map]
  simp

/-- The class-exit helper never touches the collected names. -/
theorem indepScanExitClass_names (st : IndepScanState) (stripped : List Char) (li : Nat) :
    (indepScanExitClass st stripped li).names = st.names := by
  unfold indepScanExitClass
  split
  · split <;> rfl
  · rfl

/-- One scanner step only ever adds names outside the class-method
set. -/
theorem indepScanStep_notin (cms : List String) (st : IndepScanState) (line : List Char)
    (h : ∀ n ∈ st.names, n ∉ cms) :
    ∀ n ∈ (indepScanStep cms st line).names, n ∉ cms := by
  intro n hn
  unfold indepScanStep at hn
  dsimp only at hn
  split at hn
  · exact h n hn
  · split at hn
    · exact h n hn
    · split at hn
      · rename_i n0 heq
        split at hn
        · rename_i hguard
          dsimp only at hn
          rw [indepScanExitClass_names] at hn
          rcases List.mem_append.mp hn with h1 | h1
          · exact h n h1
          · have h2 : n = n0 := List.mem_singleton.mp h1
            subst h2
            exact hguard.2.1
        · rw [indepScanExitClass_names] at hn
          exact h n hn
      · rw [indepScanExitClass_names] at hn
        exact h n hn

/-- The regex fallback never reports a name claimed by a class. -/
theorem extractIndependentFunctionsRegex_notin (content : String)
    (rels : List (String × List String)) :
    ∀ n ∈ extractIndependentFunctionsRegex content rels, n ∉ classMethodsOf rels := by
  intro n hn
  unfold extractIndependentFunctionsRegex at hn
  rw [List.mem_dedup] at hn
  exact foldl_inv (fun (st : IndepScanState) => ∀ n ∈ st.names, n ∉ classMethodsOf rels)
    (indepScanStep (classMethodsOf rels)) (splitLines content.data)
    { inClass := false, classIndent := 0, names := [] } (by simp)
    (fun st line hst => indepScanStep_notin (classMethodsOf rels) st line hst) n hn

/-- The AST candidate loop never collects a name claimed by a class. -/
theorem astIndepCandidates_notin (tree : List PyStmt) (cms : List String) :
    ∀ n ∈ astIndepCandidates tree cms, n ∉ cms := by
  unfold astIndepCandidates
  refine foldl_inv (fun (acc : List String) => ∀ n ∈ acc, n ∉ cms) _ (pyWalk tree) []
    (by simp) ?_
  intro acc s hacc n hn
  cases s with
  | classDef name body => exact hacc n hn
  | other body => exact hacc n hn
  | funcDef name isAsync body =>
    dsimp only at hn
    split at hn
    · rename_i hguard
      rcases List.mem_append.mp hn with h1 | h1
      · exact hacc n h1
      · have h2 : n = name := List.mem_singleton.mp h1
        subst h2
        exact hguard.1
    · exact hacc n hn

/-- On every path, the independent-function extractor excludes names
claimed by any class of the relationships it is given. -/
theorem extractIndependentFunctions_notin (parse : String → Option (List PyStmt))
    (content language : String) (rels : List (String × List String)) :
    ∀ n ∈ extractIndependentFunctions parse content language rels,
      n ∉ classMethodsOf rels := by
  intro n hn
  unfold extractIndependentFunctions at hn
  split at hn
  · split at hn
    · exact extractIndependentFunctionsRegex_notin content rels n hn
    · rename_i tree heq
      dsimp only at hn
      split at hn
      · exact extractIndependentFunctionsRegex_notin content rels n hn
      · have h1 := List.mem_of_mem_take hn
        have h2 := List.mem_of_mem_filter h1
        rw [List.mem_dedup] at h2
        exact astIndepCandidates_notin tree (classMethodsOf rels) n h2
  · exact extractIndependentFunctionsRegex_notin content rels n hn

/-- C3: for every file, the Context Retriever builds exactly
`1 + n + m` queries — one file-level query from the path and language,
one per class from the class name and language, one per independent
function from the function name and language, in that order — and a
method of any extracted class is never among the independent functions,
hence never queried independently. -/
theorem c3_retrieval_queries (parse : String → Option (List PyStmt))
    (filePath content language : String)
    (rels : List (String × List String)) (funcs : List String) :
    buildSearchQueries filePath language rels funcs =
      (filePath ++ " " ++ language ++ " 文件") ::
        (rels.map (fun c => c.1 ++ " 类 " ++ language) ++
          funcs.map (fun f => f ++ " 函数 " ++ language)) ∧
    (buildSearchQueries filePath language rels funcs).length =
      1 + rels.length + funcs.length ∧
    ∀ c ∈ extractClassMethodRelationships parse content language, ∀ m ∈ c.2,
      m ∉ extractIndependentFunctions parse content language
            (extractClassMethodRelationships parse content language) := by
  refine ⟨buildSearchQueries_eq filePath language rels funcs, ?_, ?_⟩
  · rw [buildSearchQueries_eq]
    simp [List.length_append]
    omega
  · intro c hc m hm hmem
    have h1 : m ∈ classMethodsOf (extractClassMethodRelationships parse content language) := by
      unfold classMethodsOf
      rw [List.mem_flatten]
      exact ⟨c.2, List.mem_map_of_mem Prod.snd hc, hm⟩
    exact extractIndependentFunctions_notin parse content language _ m hmem h1

/-- C3 witness: the `Foo`/`helper` sample file yields exactly 3 queries
and its method `bar` is never queried independently. -/
theorem c3_retrieval_queries_witness :
    (buildSearchQueries "src/foo.py" "python"
        (extractClassMethodRelationships fooParse fooContent "python")
        (extractIndependentFunctions fooParse fooContent "python"
          (extractClassMethodRelationships fooParse fooContent "python"))).length = 3 ∧
    "bar" ∉ extractIndependentFunctions fooParse fooContent "python"
        (extractClassMethodRelationships fooParse fooContent "python") := by
  have h := c3_retrieval_queries fooParse "src/foo.py" fooContent "python"
    (extractClassMethodRelationships fooParse fooContent "python")
    (extractIndependentFunctions fooParse fooContent "python"
      (extractClassMethodRelationships fooParse fooContent "python"))
  refine ⟨?_, ?_⟩
  · rw [h.2.1]; decide
  · exact h.2.2 ("Foo", ["bar", "baz"]) (by decide) "bar" (by decide)

/-- Entries of a dict after assignment come from the old dict or are
the assigned pair. -/
theorem mem_dictSet {α : Type} (d : List (String × α)) (k : String) (v : α) :
    ∀ x ∈ dictSet d k v, x ∈ d ∨ x = (k, v) := by
  induction d with
  | nil =>
    intro x hx
    unfold dictSet at hx
    exact Or.inr (List.mem_singleton.mp hx)
  | cons p rest ih =>
    intro x hx
    unfold dictSet at hx
    split at hx
    · rcases List.mem_cons.mp hx with h | h
      · exact Or.inr h
      · exact Or.inl (List.mem_cons_of_mem p h)
    · rcases List.mem_cons.mp hx with h | h
      · exact Or.inl (by rw [h]; exact List.mem_cons_self p rest)
      · rcases ih x h with h1 | h1
        · exact Or.inl (List.mem_cons_of_mem p h1)
        · exact Or.inr h1

/-- Entries of a dict after a value append come from the old dict or
extend an old entry at the key by the appended element. -/
theorem mem_dictListAppend {α : Type} (d : List (String × List α)) (k : String) (m : α) :
    ∀ x ∈ dictListAppend d k m, x ∈ d ∨ ∃ xs, (k, xs) ∈ d ∧ x = (k, xs ++ [m]) := by
  induction d with
  | nil =>
    intro x hx
    simp [dictListAppend] at hx
  | cons p rest ih =>
    obtain ⟨k', xs⟩ := p
    intro x hx
    unfold dictListAppend at hx
    split at hx
    · rename_i heq
      subst heq
      rcases List.mem_cons.mp hx with h | h
      · exact Or.inr ⟨xs, List.mem_cons_self _ rest, h⟩
      · exact Or.inl (List.mem_cons_of_mem _ h)
    · rcases List.mem_cons.mp hx with h | h
      · exact Or.inl (by rw [h]; exact List.mem_cons_self _ rest)
      · rcases ih x h with h1 | ⟨xs2, hxs, h1⟩
        · exact Or.inl (List.mem_cons_of_mem _ h1)
        · exact Or.inr ⟨xs2, List.mem_cons_of_mem _ hxs, h1⟩

/-- One regex-scanner step keeps all method lists free of reserved
names. -/
theorem relScanStep_reserved (st : RelScanState) (line : List Char)
    (h : ∀ p ∈ st.relationships, ∀ m ∈ p.2, m ∉ reservedMethods) :
    ∀ p ∈ (relScanStep st line).relationships, ∀ m ∈ p.2, m ∉ reservedMethods := by
  intro p hp m hm
  unfold relScanStep at hp
  dsimp only at hp
  split at hp
  · exact h p hp m hm
  · split at hp
    · rename_i cname heq
      dsimp only at hp
      rcases mem_dictSet _ _ _ p hp with h1 | h1
      · exact h p h1 m hm
      · rw [h1] at hm
        simp at hm
    · split at hp
      · rename_i cls heq
        split at hp
        · split at hp
          · rename_i mname heq2
            split at hp
            · exact h p hp m hm
            · rename_i hres
              dsimp only at hp
              rcases mem_dictListAppend _ _ _ p hp with h1 | ⟨xs, hxs, h1⟩
              · exact h p h1 m hm
              · rw [h1] at hm
                rcases List.mem_append.mp hm with h2 | h2
                · exact h (cls, xs) hxs m h2
                · have h3 : m = mname := List.mem_singleton.mp h2
                  rw [h3]; exact hres
          · exact h p hp m hm
        · exact h p hp m hm
      · exact h p hp m hm

/-- The heuristic fallback scanner never reports a reserved method
name. -/
theorem extractRelationshipsRegex_reserved (content : String) :
    ∀ p ∈ extractRelationshipsRegex content, ∀ m ∈ p.2, m ∉ reservedMethods := by
  unfold extractRelationshipsRegex
  exact foldl_inv
    (fun (st : RelScanState) => ∀ p ∈ st.relationships, ∀ m ∈ p.2, m ∉ reservedMethods)
    relScanStep (splitLines content.data)
    { currentClass := none, indentLevel := 0, relationships := [] } (by simp)
    (fun st line hst => relScanStep_reserved st line hst)

/-- C7 counterexample: on the Python file `dunderContent`, whose parse
tree holds class `Foo` with method `__str__`, the grammar-aware parse
path of the Structure Extractor returns `__str__` inside `Foo`'s method
list, so the claimed exclusion of reserved names fails on that path. -/
theorem c7_reserved_methods_counterexample :
    extractClassMethodRelationships dunderParse dunderContent "python" =
      [("Foo", ["__str__"])] ∧
    "__str__" ∈
      classMethodsOf (extractClassMethodRelationships dunderParse dunderContent "python") :=
  ⟨by decide, by decide⟩

/-- C7 amended: whenever the Structure Extractor takes the heuristic
fallback path — a non-Python language tag, or a Python file the grammar
parse rejects — the class→methods map never contains `__str__`,
`__repr__`, `__eq__` or `__hash__`; the grammar-aware parse path
performs no such filtering. -/
theorem c7_reserved_methods_amended (parse : String → Option (List PyStmt))
    (content language : String)
    (h : language ≠ "python" ∨ parse content = none) :
    ∀ p ∈ extractClassMethodRelationships parse content language, ∀ m ∈ p.2,
      m ∉ reservedMethods := by
  intro p hp
  unfold extractClassMethodRelationships at hp
  split at hp
  · rename_i hlang
    split at hp
    · rename_i tree heq
      rcases h with h | h
      · exact absurd hlang h
      · rw [h] at heq; exact absurd heq (by simp)
    · exact extractRelationshipsRegex_reserved content p hp
  · exact extractRelationshipsRegex_reserved content p hp

/-- C7 amended witness: a syntactically broken Python file handled by
the fallback path yields `bar`, which is not reserved. -/
theorem c7_reserved_methods_amended_witness :
    "bar" ∉ reservedMethods :=
  c7_reserved_methods_amended badParse "class Foo:\n    def bar(self:\n" "python"
    (Or.inr rfl) ("Foo", ["bar"]) (by decide) "bar" (by decide)

/-- C8 counterexample: `ast.parse` rejects `badContent`, the extractor
falls back to the line scanner, and the returned list contains the
stoplist name `main` — the fallback path applies neither the stoplist
nor the cap, refuting the claim for that path. -/
theorem c8_stoplist_counterexample :
    extractIndependentFunctions badParse badContent "python" [] = ["main"] ∧
    "main" ∈ extractIndependentFunctions badParse badContent "python" [] :=
  ⟨by decide, by decide⟩

/-- C8 amended: on the grammar-aware path (the Python parse succeeds and
at least one candidate function is found), the independent-function list
has at most 10 names and contains none of main, init, test, setup,
teardown; the heuristic fallback path applies neither the cap nor the
stoplist. -/
theorem c8_stoplist_amended (parse : String → Option (List PyStmt))
    (content : String) (rels : List (String × List String)) (tree : List PyStmt)
    (hp : parse content = some tree)
    (hc : astIndepCandidates tree (classMethodsOf rels) ≠ []) :
    (extractIndependentFunctions parse content "python" rels).length ≤ 10 ∧
    ∀ n ∈ extractIndependentFunctions parse content "python" rels,
      n ∉ ["main", "init", "test", "setup", "teardown"] := by
  have heq : extractIndependentFunctions parse content "python" rels =
      (((astIndepCandidates tree (classMethodsOf rels)).dedup).filter goodIndepName).take 10 := by
    unfold extractIndependentFunctions
    rw [if_pos rfl, hp]
    dsimp only
    rw [if_neg hc]
  constructor
  · rw [heq, List.length_take]
    exact Nat.min_le_left 10 _
  · intro n hn hmem
    rw [heq] at hn
    have h1 := List.mem_of_mem_take hn
    have h2 := List.of_mem_filter h1
    simp only [List.mem_cons, List.not_mem_nil, or_false] at hmem
    rcases hmem with rfl | rfl | rfl | rfl | rfl <;> exact absurd h2 (by decide)

/-- C8 amended witness: the `Foo`/`helper` sample stays within the cap
and avoids the stoplist name `main`. -/
theorem c8_stoplist_amended_witness :
    (extractIndependentFunctions fooParse fooContent "python"
        (extractClassMethodRelationships fooParse fooContent "python")).length ≤ 10 ∧
    "main" ∉ extractIndependentFunctions fooParse fooContent "python"
        (extractClassMethodRelationships fooParse fooContent "python") := by
  have h := c8_stoplist_amended fooParse fooContent
    (extractClassMethodRelationships fooParse fooContent "python") fooTree rfl (by decide)
  exact ⟨h.1, fun hm => h.2 "main" hm (by decide)⟩

/-- The dedup loop yields passages whose contents avoid the seen set
and are pairwise distinct. -/
theorem dedupByContent_nodup (rs : List Passage) :
    ∀ seen, (∀ p ∈ dedupByContent seen rs, p.content ∉ seen) ∧
      ((dedupByContent seen rs).map (fun p => p.content)).Nodup := by
  induction rs with
  | nil => intro seen; simp [dedupByContent]
  | cons p rest ih =>
    intro seen
    unfold dedupByContent
    split
    · exact ih seen
    · rename_i hnew
      refine ⟨?_, ?_⟩
      · intro q hq
        rcases List.mem_cons.mp hq with rfl | hq2
        · exact hnew
        · have h1 := (ih (p.content :: seen)).1 q hq2
          intro hmem
          exact h1 (List.mem_cons_of_mem _ hmem)
      · simp only [List.map_cons, List.nodup_cons]
        refine ⟨?_, (ih (p.content :: seen)).2⟩
        intro hmem
        rcases List.mem_map.mp hmem with ⟨q, hq, hqc⟩
        exact (ih (p.content :: seen)).1 q hq (by rw [hqc]; exact List.mem_cons_self _ _)

/-- Re-grouping one element permutes the grouped contents by moving it
to the end. -/
theorem flatMap_addToGroups {α : Type} (gs : List (String × List α)) (t : String) (x : α) :
    List.Perm ((addToGroups gs t x).flatMap Prod.snd) (gs.flatMap Prod.snd ++ [x]) := by
  induction gs with
  | nil => simp [addToGroups]
  | cons g rest ih =>
    obtain ⟨t', xs⟩ := g
    unfold addToGroups
    split
    · simp only [List.flatMap_cons]
      have h1 : List.Perm (xs ++ [x] ++ rest.flatMap Prod.snd)
          (xs ++ (rest.flatMap Prod.snd ++ [x])) := by
        rw [List.append_assoc]
        exact List.Perm.append_left xs List.perm_append_comm
      simpa [List.append_assoc] using h1
    · simp only [List.flatMap_cons]
      have h1 : List.Perm (xs ++ (addToGroups rest t x).flatMap Prod.snd)
          (xs ++ (rest.flatMap Prod.snd ++ [x])) := List.Perm.append_left xs ih
      rw [← List.append_assoc] at h1
      exact h1

/-- Grouping partitions: the concatenation of all groups is a
permutation of the input. -/
theorem groupByKey_flatMap_perm {α : Type} (keyOf : α → String) (items : List α) :
    List.Perm ((groupByKey keyOf items).flatMap Prod.snd) items := by
  have main : ∀ gs : List (String × List α),
      List.Perm ((items.foldl (fun gs x => addToGroups gs (keyOf x) x) gs).flatMap Prod.snd)
        (gs.flatMap Prod.snd ++ items) := by
    induction items with
    | nil => intro gs; simp
    | cons x rest ih =>
      intro gs
      simp only [List.foldl_cons]
      have h1 := ih (addToGroups gs (keyOf x) x)
      have h2 := (flatMap_addToGroups gs (keyOf x) x).append_right rest
      have h3 := h1.trans h2
      rw [List.append_assoc] at h3
      simpa using h3
  simpa [groupByKey] using main []

/-- Taking a prefix of each group is a sublist of the full groups'
concatenation. -/
theorem flatMap_take_sublist {α : Type} (gs : List (String × List α)) :
    List.Sublist (gs.flatMap (fun g => g.2.take 3)) (gs.flatMap Prod.snd) := by
  induction gs with
  | nil => simp
  | cons g rest ih =>
    simp only [List.flatMap_cons]
    exact (List.take_sublist 3 g.2).append ih

/-- The keys after re-grouping one element: unchanged when the key is
already present, appended otherwise. -/
theorem addToGroups_keys {α : Type} (gs : List (String × List α)) (t : String) (x : α) :
    (addToGroups gs t x).map Prod.fst =
      if t ∈ gs.map Prod.fst then gs.map Prod.fst else gs.map Prod.fst ++ [t] := by
  induction gs with
  | nil => simp [addToGroups]
  | cons g rest ih =>
    obtain ⟨t', xs⟩ := g
    unfold addToGroups
    split
    · rename_i heq
      subst heq
      simp
    · rename_i hne
      simp only [List.map_cons, ih]
      by_cases hmem : t ∈ rest.map Prod.fst
      · simp [hmem, hne]
      · have hne2 : ¬ (t = t' ∨ t ∈ rest.map Prod.fst) := by
          rintro (rfl | hc)
          · exact hne rfl
          · exact hmem hc
        simp [hmem, List.mem_cons, hne2]
        rw [if_neg (fun hh => hne hh.symm)]

/-- Re-grouping preserves "every element of a group carries the group's
key". -/
theorem addToGroups_keyed {α : Type} (keyOf : α → String) (gs : List (String × List α))
    (t : String) (x : α) (hx : keyOf x = t)
    (h : ∀ g ∈ gs, ∀ y ∈ g.2, keyOf y = g.1) :
    ∀ g ∈ addToGroups gs t x, ∀ y ∈ g.2, keyOf y = g.1 := by
  induction gs with
  | nil =>
    intro g hg y hy
    rw [List.mem_singleton.mp hg] at hy ⊢
    rw [List.mem_singleton.mp hy]
    exact hx
  | cons g0 rest ih =>
    obtain ⟨t', xs⟩ := g0
    intro g hg y hy
    unfold addToGroups at hg
    split at hg
    · rename_i heq
      subst heq
      rcases List.mem_cons.mp hg with rfl | hg2
      · rcases List.mem_append.mp hy with h1 | h1
        · exact h (t', xs) (List.mem_cons_self _ _) y h1
        · rw [List.mem_singleton.mp h1]; exact hx
      · exact h g (List.mem_cons_of_mem _ hg2) y hy
    · rcases List.mem_cons.mp hg with rfl | hg2
      · exact h (t', xs) (List.mem_cons_self _ _) y hy
      · exact ih (fun g' hg' => h g' (List.mem_cons_of_mem _ hg')) g hg2 y hy

/-- Grouping produces pairwise-distinct keys and correctly keyed
groups. -/
theorem groupByKey_wf {α : Type} (keyOf : α → String) (items : List α) :
    ((groupByKey keyOf items).map Prod.fst).Nodup ∧
    ∀ g ∈ groupByKey keyOf items, ∀ y ∈ g.2, keyOf y = g.1 := by
  unfold groupByKey
  refine foldl_inv (fun (gs : List (String × List α)) =>
      ((gs.map Prod.fst).Nodup ∧ ∀ g ∈ gs, ∀ y ∈ g.2, keyOf y = g.1))
    _ items [] (by simp) ?_
  intro gs x hgs
  refine ⟨?_, addToGroups_keyed keyOf gs (keyOf x) x rfl hgs.2⟩
  rw [addToGroups_keys]
  split
  · exact hgs.1
  · rename_i hnotin
    simp [List.nodup_append, hgs.1, hnotin]

/-- At most 3 elements of any one key survive the per-group `take 3`
over well-formed groups. -/
theorem filter_flatMap_take3 {α : Type} (keyOf : α → String) (gs : List (String × List α))
    (t : String) (h1 : (gs.map Prod.fst).Nodup)
    (h2 : ∀ g ∈ gs, ∀ y ∈ g.2, keyOf y = g.1) :
    ((gs.flatMap (fun g => g.2.take 3)).filter (fun y => keyOf y = t)).length ≤ 3 := by
  induction gs with
  | nil => simp
  | cons g rest ih =>
    obtain ⟨t', xs⟩ := g
    simp only [List.flatMap_cons, List.filter_append, List.length_append]
    have h1' : (t' :: rest.map Prod.fst).Nodup := by simpa using h1
    have hpair := List.nodup_cons.mp h1'
    by_cases hcase : t' = t
    · subst hcase
      have hfirst : ((xs.take 3).filter (fun y => keyOf y = t')).length ≤ 3 := by
        refine le_trans (List.length_filter_le _ _) ?_
        rw [List.length_take]
        exact Nat.min_le_left _ _
      have hzero :
          ((rest.flatMap (fun g => g.2.take 3)).filter (fun y => keyOf y = t')).length = 0 := by
        rw [List.length_eq_zero, List.filter_eq_nil_iff]
        intro y hy
        rcases List.mem_flatMap.mp hy with ⟨g2, hg2, hyg⟩
        have hyk := h2 g2 (List.mem_cons_of_mem _ hg2) y (List.mem_of_mem_take hyg)
        simp only [decide_eq_true_eq]
        intro hcontra
        exact hpair.1 (by
          rw [← hcontra, hyk]
          exact List.mem_map_of_mem Prod.fst hg2)
      omega
    · have hfirst : ((xs.take 3).filter (fun y => keyOf y = t)).length = 0 := by
        rw [List.length_eq_zero, List.filter_eq_nil_iff]
        intro y hy
        have hyk : keyOf y = t' := h2 (t', xs) (List.mem_cons_self _ _) y (List.mem_of_mem_take hy)
        simp only [decide_eq_true_eq]
        intro hcontra
        exact hcase (hyk.symm.trans hcontra)
      have hrest := ih hpair.2 (fun g hg => h2 g (List.mem_cons_of_mem _ hg))
      omega

/-- At most 3 passages are shown for any one target label. -/
theorem shownPassages_per_target (rs : List Passage) (t : String) :
    ((shownPassages rs).filter (fun p => passageTarget p = t)).length ≤ 3 := by
  unfold shownPassages targetGroupsOf
  have hwf := groupByKey_wf passageTarget ((uniqueResults rs).take 15)
  exact filter_flatMap_take3 passageTarget _ t hwf.1 hwf.2

/-- At most 15 passages are shown in total. -/
theorem shownPassages_length_le (rs : List Passage) :
    (shownPassages rs).length ≤ 15 := by
  have h1 : (shownPassages rs).length ≤ ((targetGroupsOf rs).flatMap Prod.snd).length :=
    (flatMap_take_sublist _).length_le
  have h2 : ((targetGroupsOf rs).flatMap Prod.snd).length =
      ((uniqueResults rs).take 15).length :=
    (groupByKey_flatMap_perm passageTarget _).length_eq
  have h3 : ((uniqueResults rs).take 15).length ≤ 15 := by
    rw [List.length_take]
    exact Nat.min_le_left _ _
  omega

/-- The shown passages have pairwise-distinct contents. -/
theorem shownPassages_nodup_content (rs : List Passage) :
    ((shownPassages rs).map (fun p => p.content)).Nodup := by
  have hu : ((uniqueResults rs).map (fun p => p.content)).Nodup :=
    (dedupByContent_nodup rs []).2
  have ht : (((uniqueResults rs).take 15).map (fun p => p.content)).Nodup :=
    hu.sublist ((List.take_sublist _ _).map _)
  have hperm : List.Perm (((targetGroupsOf rs).flatMap Prod.snd).map (fun p => p.content))
      (((uniqueResults rs).take 15).map (fun p => p.content)) :=
    (groupByKey_flatMap_perm passageTarget _).map _
  have hfm : (((targetGroupsOf rs).flatMap Prod.snd).map (fun p => p.content)).Nodup :=
    hperm.nodup_iff.mpr ht
  exact hfm.sublist ((flatMap_take_sublist _).map _)

/-- C6: the rendered retrieval context shows at most one passage per
distinct content string (dedup by content hash across all queries of
the file), at most 15 passages in total and at most 3 per target label,
and renders the empty string when nothing was retrieved. -/
theorem c6_context_rendering (rs : List Passage) (t : String) :
    ((shownPassages rs).map (fun p => p.content)).Nodup ∧
    (shownPassages rs).length ≤ 15 ∧
    ((shownPassages rs).filter (fun p => passageTarget p = t)).length ≤ 3 ∧
    renderContext [] = "" :=
  ⟨shownPassages_nodup_content rs, shownPassages_length_le rs,
    shownPassages_per_target rs t, rfl⟩

end CodeReader
